import Mathlib

/-!
Verification of the sugar-lowering stage (`compiler/src/sugar.rs`).

The file shallowly embeds the `Desugar` rewriter: the typed expression
tree, the prefix-statement queue, the fresh-local allocator, the callable
resolver, and the three lowering algorithms (array literals, interpolated
strings, for-in loops).  Collaborating components that live outside this
stage (the scope/symbol resolver, the constant pool's type indexing, the
type-of query of the typechecker, the error type, and the generic
expression-transformer dispatch) are modelled from the design document and
are marked as such on their definitions.
-/

namespace Sugar

/-- Source position attached to every tree node (ast `Span` with a low and
a high offset). -/
structure Span where
  low : Nat
  high : Nat
deriving DecidableEq

/-- Literal kinds of string-like constants (ast `Literal`); only the plain
`String` kind is produced by this stage. -/
inductive Lit where
  | str
  | name
  | resource
  | tweakDbId
deriving DecidableEq

/-- Constants appearing in lowered trees (ast `Constant`); this stage
produces string constants and the `I32` constants `0` and `1`. -/
inductive Constant where
  | string (kind : Lit) (value : String)
  | i32 (value : Int)
deriving DecidableEq

/-- Modelled from the spec: a concrete storage slot (`scope::Value`), most
relevantly a `Local` identified by an opaque handle into the definition
store. -/
inductive Value where
  | local (idx : Nat)
  | param (idx : Nat)
deriving DecidableEq

/-- Modelled from the spec: a `scope::Reference` names either a resolvable
symbol or a concrete storage `Value`. -/
inductive Reference where
  | value (v : Value)
  | symbol (name : String)
deriving DecidableEq

/-- Built-in operation tags used by this stage (`bytecode::IntrinsicOp`
restricted to the four intrinsics the lowering algorithms construct). -/
inductive IntrinsicOp where
  | arrayPush
  | arraySize
  | toString
  | asRef
deriving DecidableEq

/-- Modelled from the spec: resolved types (`scope::TypeId`): the void
type, named types, script references, and array types. -/
inductive TypeId where
  | void
  | name (s : String)
  | ref (t : TypeId)
  | scriptRef (t : TypeId)
  | array (t : TypeId)
deriving DecidableEq

/-- Modelled from the spec: the pretty name of a type, used by the
interpolation classifier to recognise the string type. -/
def TypeId.pretty : TypeId → String
  | .void => "Void"
  | .name s => s
  | .ref t => "ref<" ++ t.pretty ++ ">"
  | .scriptRef t => "script_ref<" ++ t.pretty ++ ">"
  | .array t => "array<" ++ t.pretty ++ ">"

/-- A callable (`typechecker::Callable`): either a resolved user function
handle or a built-in intrinsic tagged with its result type. -/
inductive Callable where
  | function (idx : Nat)
  | intrinsic (op : IntrinsicOp) (ret : TypeId)
deriving DecidableEq

/-- The typed expression tree (ast `Expr<TypedAst>`), restricted to the
node kinds enumerated by the design document: constants, identifier
references, calls, assignments, array-element access, while-loops, array
literals, interpolated strings, for-in loops.  Statement sequences
(`Seq`) are lists of expressions. -/
inductive Expr where
  | constant (c : Constant) (pos : Span)
  | ident (r : Reference) (pos : Span)
  | call (c : Callable) (typeArgs : List TypeId) (args : List Expr) (pos : Span)
  | assign (lhs rhs : Expr) (pos : Span)
  | arrayElem (arr idx : Expr) (pos : Span)
  | whileLoop (cond : Expr) (body : List Expr) (pos : Span)
  | arrayLit (elems : List Expr) (ty : Option TypeId) (pos : Span)
  | interpStr (pre : String) (parts : List (Expr × String)) (pos : Span)
  | forIn (name : Nat) (array : Expr) (body : List Expr) (pos : Span)

/-- Modelled from the spec: an exact function signature ordered parameter
type names with by-reference flags plus a return type (`symbol`'s
`FunctionSignature`, built by `FunctionSignatureBuilder`). -/
structure FunctionSignature where
  name : String
  params : List (String × Bool)
  ret : String
deriving DecidableEq

/-- Error causes surfaced by this stage (`error::Cause`; modelled from the
spec for the parts outside this file): function-not-found carrying the
attempted signature, unresolved symbol lookups, the unsupported-operand
condition, and pool/definition-store failures. -/
inductive Cause where
  | functionNotFound (sig : FunctionSignature)
  | unresolvedFunction (name : String)
  | unresolvedType (name : String)
  | unsupported (what : String)
  | poolError (msg : String)
deriving DecidableEq

/-- Modelled from the spec: an error is a cause annotated with the current
source position if one has been attached yet (`error::Error`). -/
structure Error where
  cause : Cause
  span : Option Span
deriving DecidableEq

/-- Attach a source position to a cause (`Cause::with_span`). -/
def Cause.withSpan (c : Cause) (s : Span) : Error := ⟨c, some s⟩

/-- Attach a source position to the error of a fallible result
(`ResultSpan::with_span`). -/
def resultWithSpan (r : Except Cause α) (s : Span) : Except Error α :=
  match r with
  | .ok a => .ok a
  | .error c => .error (c.withSpan s)

/-- Convert a cause into an error without a position, as the plain `?`
propagation does (modelled from the spec: positions are attached when not
already annotated). -/
def Cause.toError (c : Cause) : Error := ⟨c, none⟩

/-- Outcome of running a lowering step: success, a reported error
condition, or a Rust panic (an `unwrap` on a missing value). -/
inductive Outcome (α : Type) where
  | ok (val : α)
  | err (e : Error)
  | panicked (msg : String)
deriving DecidableEq

/-- Sequencing of outcomes: errors and panics short-circuit. -/
def Outcome.bind : Outcome α → (α → Outcome β) → Outcome β
  | .ok a, f => f a
  | .err e, _ => .err e
  | .panicked m, _ => .panicked m

instance : Monad Outcome where
  pure := .ok
  bind := .bind

/-- Lift a fallible (but panic-free) result into an outcome, as `?` does
on a `Result`. -/
def Outcome.ofExcept : Except Error α → Outcome α
  | .ok a => .ok a
  | .error e => .err e

@[simp] theorem Outcome.bind_ok (a : α) (f : α → Outcome β) :
    Outcome.bind (.ok a) f = f a := rfl

@[simp] theorem Outcome.bind_err (e : Error) (f : α → Outcome β) :
    Outcome.bind (.err e) f = .err e := rfl

@[simp] theorem Outcome.bind_panicked (m : String) (f : α → Outcome β) :
    Outcome.bind (.panicked m) f = .panicked m := rfl

@[simp] theorem Outcome.monad_bind (x : Outcome α) (f : α → Outcome β) :
    x >>= f = x.bind f := rfl

@[simp] theorem Outcome.ofExcept_ok (a : α) :
    Outcome.ofExcept (.ok a) = .ok a := rfl

@[simp] theorem Outcome.ofExcept_error {α : Type} (e : Error) :
    (Outcome.ofExcept (Except.error e) : Outcome α) = .err e := rfl

/-- Modelled from the spec: the overload set returned by the scope's
function lookup, with its exact-signature query `by_id`. -/
structure FunCandidates where
  byId : FunctionSignature → Option Nat

/-- Modelled from the spec: the read-only scope/symbol query interface and
the upstream typechecker services consumed by this stage — the enclosing
function handle, `resolve_function`, `resolve_type`, the definition
store's `get_type_index`, and the pure `type_of` query over already-typed
sub-trees.  The scope is never mutated by this stage, so it is passed as a
fixed parameter rather than kept in the rewriter state. -/
structure Scope where
  function : Option Nat
  functions : String → Option FunCandidates
  types : String → Option TypeId
  typeIndex : TypeId → Except String Nat
  typeOf : Expr → Except Error TypeId

/-- Modelled from the spec: `resolve_function(name)` returns the overload
set, failing with a not-found condition when absent. -/
def Scope.resolve_function (sc : Scope) (name : String) : Except Cause FunCandidates :=
  match sc.functions name with
  | some c => .ok c
  | none => .error (.unresolvedFunction name)

/-- Modelled from the spec: `resolve_type(name)` returns the type handle,
failing with a not-found condition when absent. -/
def Scope.resolve_type (sc : Scope) (name : String) : Except Cause TypeId :=
  match sc.types name with
  | some t => .ok t
  | none => .error (.unresolvedType name)

/-- A local-variable definition payload (`definition::Local`): its storage
type index; it is created with empty flags. -/
structure LocalDef where
  type_idx : Nat
deriving DecidableEq

/-- A definition-store entry for a local (`Definition::local`): interned
name, owning function, and the local payload. -/
structure Definition where
  name_idx : Nat
  parent : Nat
  loc : LocalDef
deriving DecidableEq

/-- The mutable part of the definition store touched by this stage
(`bundle::ConstantPool`): the interned-name table and the definition
table; adding returns the index of the appended entry. -/
structure ConstantPool where
  names : List String
  definitions : List Definition
deriving DecidableEq

/-- The rewriter state (`Desugar`): the mutable pool, the synthetic-name
counter, the prefix-statement queue, and the created local handles. -/
structure Desugar where
  pool : ConstantPool
  name_count : Nat
  prefix_exprs : List Expr
  locals : List Nat

/-- Enqueue a fully-lowered prefix statement (`Desugar::add_prefix`). -/
def addPrefix (st : Desugar) (e : Expr) : Desugar :=
  { st with prefix_exprs := st.prefix_exprs ++ [e] }

/-- The synthetic name embedding the rewriter's counter: the source
formats the counter after the reserved text `synthetic$`. -/
def synthName (n : Nat) : String := "synthetic$" ++ Nat.repr n

/-- Fresh-slot allocation (`Desugar::fresh_local`): unwraps the enclosing
function handle (panicking when the scope has none), interns a synthetic
name built from the counter, resolves the storage type (the only error
path), registers the local definition, records the handle, bumps the
counter, and returns a reference to the new local. -/
def fresh_local (scope : Scope) (st : Desugar) (type_ : TypeId) :
    Outcome (Reference × Desugar) :=
  match scope.function with
  | none => .panicked ("called Option::unwrap() on a None value")
  | some fun_idx =>
    let name_idx := st.pool.names.length
    let names' := st.pool.names ++ [synthName st.name_count]
    match scope.typeIndex type_ with
    | .error msg => .err (Cause.poolError msg).toError
    | .ok type_idx =>
      let defn : Definition := ⟨name_idx, fun_idx, ⟨type_idx⟩⟩
      let idx := st.pool.definitions.length
      .ok (Reference.value (Value.local idx),
        { st with
          pool := ⟨names', st.pool.definitions ++ [defn]⟩
          locals := st.locals ++ [idx]
          name_count := st.name_count + 1 })

/-- Callable resolution (`Desugar::get_function`): resolve the overload
set for the operation name, then look for an exact signature match; on
success always a `Callable.function`, otherwise the function-not-found
condition carrying the attempted signature. -/
def get_function (scope : Scope) (sig : FunctionSignature) : Except Cause Callable :=
  match scope.resolve_function sig.name with
  | .error c => .error c
  | .ok cands =>
    match cands.byId sig with
    | some idx => .ok (Callable.function idx)
    | none => .error (Cause.functionNotFound sig)

/-- Modelled from the spec: the operator names used to build lookup
signatures (ast `BinOp` and its display names; the exact spelling is
immaterial to this stage). -/
inductive BinOp where
  | add
  | assignAdd
  | less
deriving DecidableEq

/-- Display name of an operator (ast `BinOp` to-string). -/
def BinOp.toStr : BinOp → String
  | .add => "OperatorAdd"
  | .assignAdd => "OperatorAssignAdd"
  | .less => "OperatorLess"

/-- Basic type names used by the lowering algorithms (ast `TypeName`). -/
def TypeName.STRING : String := "String"

/-- The 32-bit integer type name. -/
def TypeName.INT32 : String := "Int32"

/-- The boolean type name. -/
def TypeName.BOOL : String := "Bool"

/-- Signature of the two-argument string concatenation function: two
reference-to-string parameters, string return. -/
def addStrSig : FunctionSignature :=
  ⟨BinOp.add.toStr, [("Script_RefString", false), ("Script_RefString", false)], TypeName.STRING⟩

/-- Signature of integer compound add-assign: first parameter by
reference, second by value, integer return. -/
def assignAddSig : FunctionSignature :=
  ⟨BinOp.assignAdd.toStr, [(TypeName.INT32, true), (TypeName.INT32, false)], TypeName.INT32⟩

/-- Signature of integer less-than: two integer parameters, boolean
return. -/
def lessThanSig : FunctionSignature :=
  ⟨BinOp.less.toStr, [(TypeName.INT32, false), (TypeName.INT32, false)], TypeName.BOOL⟩

/-- The take-reference adapter: an `AsRef` intrinsic call whose result is
a script reference to the string type. -/
def asRefCall (strType : TypeId) (span : Span) (exp : Expr) : Expr :=
  Expr.call (Callable.intrinsic .asRef (.scriptRef strType)) [] [exp] span

/-- A `ToString` intrinsic call whose result is typed as the string
type. -/
def toStringCall (strType : TypeId) (span : Span) (exp : Expr) : Expr :=
  Expr.call (Callable.intrinsic .toString strType) [] [exp] span

/-- An `ArrayPush` intrinsic call pushing a lowered element onto the
synthetic array local. -/
def pushCall (localRef : Reference) (pos : Span) (elem : Expr) : Expr :=
  Expr.call (Callable.intrinsic .arrayPush .void) [] [Expr.ident localRef pos, elem] pos

/-- Type-directed classification of a lowered interpolation part (the
match inside `on_interpolated_string`): void fails as unsupported; a
script reference to the string type is used as is; a type whose pretty
name is the string name is wrapped in one take-reference call; anything
else goes through `ToString` and is then wrapped in one take-reference
call.  The middle branch of the script-reference case renders the
fall-through of the source's guarded match arm. -/
def classify (strType : TypeId) (span : Span) (part : Expr) : TypeId → Except Error Expr
  | .void => .error ((Cause.unsupported ("Formatting void")).withSpan span)
  | .scriptRef idx =>
      if idx.pretty = "String" then .ok part
      else if (TypeId.scriptRef idx).pretty = "String" then .ok (asRefCall strType span part)
      else .ok (asRefCall strType span (toStringCall strType span part))
  | ty =>
      if ty.pretty = "String" then .ok (asRefCall strType span part)
      else .ok (asRefCall strType span (toStringCall strType span part))

/-- Combine a classified part with its trailing literal fragment: the
classified part alone when the fragment is empty, otherwise the
take-reference wrapping of the concatenation of the classified part with
the reference-wrapped fragment literal. -/
def combineWithFragment (strType : TypeId) (addStr : Callable) (span : Span)
    (classified : Expr) (frag : String) : Expr :=
  if frag.isEmpty then classified
  else
    asRefCall strType span
      (Expr.call addStr []
        [classified, asRefCall strType span (Expr.constant (.string .str frag) span)] span)

theorem expr_sizeOf_pos (e : Expr) : 0 < sizeOf e := by
  cases e <;> simp_arith

theorem span_sizeOf_pos (s : Span) : 0 < sizeOf s := by
  cases s; simp_arith

mutual

/-- Modelled from the spec: the order-preserving rewriter's dispatch
(`ExprTransformer::on_expr`): depth-first, left-to-right traversal
dispatching to a lowering algorithm for each of the three sugar kinds and
leaving all other node kinds structurally unchanged while recursing into
their children. -/
def on_expr (scope : Scope) (st : Desugar) : Expr → Outcome (Expr × Desugar)
  | .constant c pos => .ok (.constant c pos, st)
  | .ident r pos => .ok (.ident r pos, st)
  | .call c targs args pos =>
      Outcome.bind (on_expr_list scope st args) fun p =>
        .ok (.call c targs p.1 pos, p.2)
  | .assign lhs rhs pos =>
      Outcome.bind (on_expr scope st lhs) fun p =>
        Outcome.bind (on_expr scope p.2 rhs) fun q =>
          .ok (.assign p.1 q.1 pos, q.2)
  | .arrayElem arr idx pos =>
      Outcome.bind (on_expr scope st arr) fun p =>
        Outcome.bind (on_expr scope p.2 idx) fun q =>
          .ok (.arrayElem p.1 q.1 pos, q.2)
  | .whileLoop cond body pos =>
      Outcome.bind (on_expr scope st cond) fun p =>
        Outcome.bind (on_seq scope p.2 body) fun q =>
          .ok (.whileLoop p.1 q.1 pos, q.2)
  | .arrayLit elems ty pos => on_array_lit scope st elems ty pos
  | .interpStr pre parts pos => on_interpolated_string scope st pre parts pos
  | .forIn name array body pos => on_for_in scope st name array body pos
termination_by e => 3 * sizeOf e
decreasing_by
  all_goals simp_wf
  all_goals first
    | omega
    | (have h1 := span_sizeOf_pos pos; omega)

/-- Left-to-right lowering of the children of a non-sugar node. -/
def on_expr_list (scope : Scope) (st : Desugar) : List Expr → Outcome (List Expr × Desugar)
  | [] => .ok ([], st)
  | e :: rest =>
      Outcome.bind (on_expr scope st e) fun p =>
        Outcome.bind (on_expr_list scope p.2 rest) fun q =>
          .ok (p.1 :: q.1, q.2)
termination_by l => 3 * sizeOf l + 1

/-- Statement-sequence processing (`Desugar::on_seq`), a loop over the
statements accumulating the output vector. -/
def on_seq (scope : Scope) (st : Desugar) (seq : List Expr) : Outcome (List Expr × Desugar) :=
  on_seq_go scope st [] seq
termination_by 3 * sizeOf seq + 2

/-- One iteration of the `on_seq` loop: lower the statement, flush a
non-empty prefix queue into the output right before it, append the
lowered statement. -/
def on_seq_go (scope : Scope) (st : Desugar) (processed : List Expr) :
    List Expr → Outcome (List Expr × Desugar)
  | [] => .ok (processed, st)
  | e :: rest =>
      Outcome.bind (on_expr scope st e) fun p =>
        if p.2.prefix_exprs.isEmpty then
          on_seq_go scope p.2 (processed ++ [p.1]) rest
        else
          on_seq_go scope { p.2 with prefix_exprs := [] }
            ((processed ++ p.2.prefix_exprs) ++ [p.1]) rest
termination_by l => 3 * sizeOf l + 1

/-- Array-literal lowering (`Desugar::on_array_lit`): unwrap the element
type (panicking when absent), allocate one fresh local of the array type,
then push each lowered element in source order, returning a plain
reference to the local. -/
def on_array_lit (scope : Scope) (st : Desugar) (exprs : List Expr)
    (ty : Option TypeId) (pos : Span) : Outcome (Expr × Desugar) :=
  match ty with
  | none => .panicked ("called Option::unwrap() on a None value")
  | some elemTy =>
      Outcome.bind (fresh_local scope st (TypeId.array elemTy)) fun p =>
        Outcome.bind (push_elems scope p.1 pos p.2 exprs) fun st2 =>
          .ok (.ident p.1 pos, st2)
termination_by 3 * sizeOf exprs + 2

/-- The per-element loop of array-literal lowering: recursively lower the
element, then enqueue an `ArrayPush` prefix statement with the array
local and the lowered element. -/
def push_elems (scope : Scope) (localRef : Reference) (pos : Span) (st : Desugar) :
    List Expr → Outcome Desugar
  | [] => .ok st
  | e :: rest =>
      Outcome.bind (on_expr scope st e) fun p =>
        push_elems scope localRef pos (addPrefix p.2 (pushCall localRef pos p.1)) rest
termination_by l => 3 * sizeOf l + 1

/-- String-interpolation lowering (`Desugar::on_interpolated_string`):
initialize the accumulator to the prefix literal, resolve the string type
and the concatenation function once, then fold over the parts. -/
def on_interpolated_string (scope : Scope) (st : Desugar) (pre : String)
    (parts : List (Expr × String)) (span : Span) : Outcome (Expr × Desugar) :=
  let acc := Expr.constant (.string .str pre) span
  Outcome.bind (Outcome.ofExcept (resultWithSpan (scope.resolve_type TypeName.STRING) span))
    fun strType =>
      Outcome.bind (Outcome.ofExcept (resultWithSpan (get_function scope addStrSig) span))
        fun addStr => interp_parts scope strType addStr span st acc parts
termination_by 3 * sizeOf parts + 2

/-- The per-part loop of string-interpolation lowering: lower the part,
query its type, classify it, combine it with the trailing fragment, and
fold it into the accumulator through the concatenation function. -/
def interp_parts (scope : Scope) (strType : TypeId) (addStr : Callable) (span : Span)
    (st : Desugar) (acc : Expr) : List (Expr × String) → Outcome (Expr × Desugar)
  | [] => .ok (acc, st)
  | (part, s) :: rest =>
      Outcome.bind (on_expr scope st part) fun p =>
        Outcome.bind (Outcome.ofExcept (scope.typeOf p.1)) fun ty =>
          Outcome.bind (Outcome.ofExcept (classify strType span p.1 ty)) fun cls =>
            interp_parts scope strType addStr span p.2
              (Expr.call addStr []
                [asRefCall strType span acc, combineWithFragment strType addStr span cls s]
                span)
              rest
termination_by l => 3 * sizeOf l + 1

/-- For-in lowering (`Desugar::on_for_in`): lower the body first and the
array expression second, allocate the array local and the integer
counter, enqueue the two initializing assignments, resolve add-assign and
less-than, and emit the single while-loop. -/
def on_for_in (scope : Scope) (st : Desugar) (name : Nat) (array : Expr)
    (body : List Expr) (span : Span) : Outcome (Expr × Desugar) :=
  Outcome.bind (on_seq scope st body) fun ps =>
    Outcome.bind (on_expr scope ps.2 array) fun pa =>
      Outcome.bind (Outcome.ofExcept (scope.typeOf pa.1)) fun arrType =>
        Outcome.bind (fresh_local scope pa.2 arrType) fun pl =>
          Outcome.bind
            (Outcome.ofExcept (resultWithSpan (scope.resolve_type TypeName.INT32) span))
            fun counterType =>
              Outcome.bind (fresh_local scope pl.2 counterType) fun pc =>
                let st5 := addPrefix pc.2 (Expr.assign (.ident pl.1 span) pa.1 span)
                let st6 :=
                  addPrefix st5
                    (Expr.assign (.ident pc.1 span) (.constant (.i32 0) span) span)
                let arraySizeC := Callable.intrinsic .arraySize counterType
                Outcome.bind
                  (Outcome.ofExcept (resultWithSpan (get_function scope assignAddSig) span))
                  fun assignAdd =>
                    Outcome.bind
                      (Outcome.ofExcept
                        (resultWithSpan (get_function scope lessThanSig) span))
                      fun lessThan =>
                        let condition :=
                          Expr.call lessThan []
                            [.ident pc.1 span,
                              Expr.call arraySizeC [] [.ident pl.1 span] span]
                            span
                        let assignIterValue :=
                          Expr.assign (.ident (Reference.value (Value.local name)) span)
                            (Expr.arrayElem (.ident pl.1 span) (.ident pc.1 span) span)
                            span
                        let incrementCounter :=
                          Expr.call assignAdd []
                            [.ident pc.1 span, .constant (.i32 1) span] span
                        .ok
                          (.whileLoop condition (assignIterValue :: ps.1 ++ [incrementCounter])
                            span, st6)
termination_by 3 * (sizeOf array + sizeOf body) + 3

end

mutual

/-- Number of calls to a given intrinsic occurring anywhere in an
expression, used to state the exactly-once interpolation properties. -/
def countOp (op : IntrinsicOp) : Expr → Nat
  | .constant _ _ => 0
  | .ident _ _ => 0
  | .call c _ args _ =>
      (match c with
        | .intrinsic o _ => if o = op then 1 else 0
        | .function _ => 0) + countOpList op args
  | .assign l r _ => countOp op l + countOp op r
  | .arrayElem a i _ => countOp op a + countOp op i
  | .whileLoop c b _ => countOp op c + countOpList op b
  | .arrayLit es _ _ => countOpList op es
  | .interpStr _ ps _ => countOpPairs op ps
  | .forIn _ a b _ => countOp op a + countOpList op b
termination_by e => 3 * sizeOf e

/-- Intrinsic-call count over a list of expressions. -/
def countOpList (op : IntrinsicOp) : List Expr → Nat
  | [] => 0
  | e :: rest => countOp op e + countOpList op rest
termination_by l => 3 * sizeOf l + 1

/-- Intrinsic-call count over interpolation parts. -/
def countOpPairs (op : IntrinsicOp) : List (Expr × String) → Nat
  | [] => 0
  | (e, _) :: rest => countOp op e + countOpPairs op rest
termination_by l => 3 * sizeOf l + 1

end

mutual

/-- Every array literal in the tree carries its element type: the
precondition under which the unwrap in `on_array_lit` cannot fire. -/
def litsTyped : Expr → Bool
  | .constant _ _ => true
  | .ident _ _ => true
  | .call _ _ args _ => litsTypedList args
  | .assign l r _ => litsTyped l && litsTyped r
  | .arrayElem a i _ => litsTyped a && litsTyped i
  | .whileLoop c b _ => litsTyped c && litsTypedList b
  | .arrayLit es ty _ => ty.isSome && litsTypedList es
  | .interpStr _ ps _ => litsTypedPairs ps
  | .forIn _ a b _ => litsTyped a && litsTypedList b
termination_by e => 3 * sizeOf e

/-- The array-literal typing precondition over a list of expressions. -/
def litsTypedList : List Expr → Bool
  | [] => true
  | e :: rest => litsTyped e && litsTypedList rest
termination_by l => 3 * sizeOf l + 1

/-- The array-literal typing precondition over interpolation parts. -/
def litsTypedPairs : List (Expr × String) → Bool
  | [] => true
  | (e, _) :: rest => litsTyped e && litsTypedPairs rest
termination_by l => 3 * sizeOf l + 1

end

theorem Outcome.bind_assoc (x : Outcome α) (f : α → Outcome β) (g : β → Outcome γ) :
    (x.bind f).bind g = x.bind fun a => (f a).bind g := by
  cases x <;> rfl

theorem Desugar.clear_of_empty (st : Desugar) (h : st.prefix_exprs = []) :
    { st with prefix_exprs := [] } = st := by
  cases st
  simp_all

/-- The output accumulator of the `on_seq` loop factors out: running the
loop with accumulated output `processed` prepends `processed` to the
result of running it with an empty accumulator. -/
theorem on_seq_go_acc (scope : Scope) (st : Desugar) (processed l : List Expr) :
    on_seq_go scope st processed l =
      Outcome.bind (on_seq_go scope st [] l) fun q => .ok (processed ++ q.1, q.2) := by
  induction l generalizing st processed with
  | nil => simp [on_seq_go]
  | cons e rest ih =>
    simp only [on_seq_go]
    cases h : on_expr scope st e with
    | ok p =>
      simp only [Outcome.bind_ok]
      by_cases hemp : p.2.prefix_exprs.isEmpty
      · simp only [hemp, if_true]
        rw [ih, ih p.2 ([] ++ [p.1]), Outcome.bind_assoc]
        simp
      · rw [Bool.not_eq_true] at hemp
        simp only [hemp, Bool.false_eq_true, if_false]
        rw [ih, ih _ ([] ++ p.2.prefix_exprs ++ [p.1]), Outcome.bind_assoc]
        simp
    | err e' => simp
    | panicked m => simp

/-- Unfolding of the statement loop on a first statement: lower it, splice
the whole prefix queue in front of it, and continue on the remaining
statements with an emptied queue. -/
theorem on_seq_cons (scope : Scope) (st : Desugar) (e : Expr) (rest : List Expr) :
    on_seq scope st (e :: rest) =
      Outcome.bind (on_expr scope st e) fun p =>
        Outcome.bind (on_seq scope { p.2 with prefix_exprs := [] } rest) fun q =>
          .ok (p.2.prefix_exprs ++ p.1 :: q.1, q.2) := by
  simp only [on_seq, on_seq_go]
  cases h : on_expr scope st e with
  | ok p =>
    simp only [Outcome.bind_ok]
    by_cases hemp : p.2.prefix_exprs.isEmpty
    · rw [List.isEmpty_iff] at hemp
      simp only [hemp, List.isEmpty_nil, if_true]
      rw [on_seq_go_acc, Desugar.clear_of_empty p.2 hemp]
      cases on_seq_go scope p.2 [] rest <;> simp [hemp]
    · rw [Bool.not_eq_true] at hemp
      simp only [hemp, Bool.false_eq_true, if_false]
      rw [on_seq_go_acc]
      cases on_seq_go scope { p.2 with prefix_exprs := [] } [] rest <;> simp
  | err e' => simp
  | panicked m => simp

/-- After the statement loop has processed at least one statement, the
prefix queue of the resulting state is empty. -/
theorem on_seq_go_empty_after (scope : Scope) :
    ∀ (l : List Expr) (st : Desugar) (processed out : List Expr) (st' : Desugar),
      l ≠ [] → on_seq_go scope st processed l = .ok (out, st') → st'.prefix_exprs = [] := by
  intro l
  induction l with
  | nil => intro st processed out st' hne; exact absurd rfl hne
  | cons e rest ih =>
    intro st processed out st' _ h
    simp only [on_seq_go] at h
    cases hx : on_expr scope st e with
    | ok p =>
      rw [hx] at h
      simp only [Outcome.bind_ok] at h
      split at h
      · next hemp =>
          cases rest with
          | nil =>
            simp only [on_seq_go, Outcome.ok.injEq, Prod.mk.injEq] at h
            rw [← h.2]
            exact List.isEmpty_iff.mp hemp
          | cons r rs => exact ih _ _ _ _ (List.cons_ne_nil r rs) h
      · next hemp =>
          cases rest with
          | nil =>
            simp only [on_seq_go, Outcome.ok.injEq, Prod.mk.injEq] at h
            rw [← h.2]
          | cons r rs => exact ih _ _ _ _ (List.cons_ne_nil r rs) h
    | err e' => rw [hx] at h; simp at h
    | panicked m => rw [hx] at h; simp at h

/-- A zero-width source position used by the concrete examples. -/
def sp0 : Span := ⟨0, 0⟩

/-- An empty constant pool used by the concrete examples. -/
def emptyPool : ConstantPool := ⟨[], []⟩

/-- A concrete overload table resolving the three operator signatures this
stage looks up. -/
def demoCands : FunCandidates :=
  ⟨fun sig =>
    if sig = addStrSig then some 7
    else if sig = assignAddSig then some 8
    else if sig = lessThanSig then some 9
    else none⟩

/-- A concrete scope for the examples: bound to a function, resolving the
three operators, the string and integer types, every storage type, and
typing every expression as a plain integer. -/
def demoScope : Scope where
  function := some 5
  functions := fun n =>
    if n = BinOp.add.toStr || n = BinOp.assignAdd.toStr || n = BinOp.less.toStr then
      some demoCands
    else none
  types := fun n =>
    if n = TypeName.STRING then some (.name "String")
    else if n = TypeName.INT32 then some (.name "Int32")
    else none
  typeIndex := fun _ => .ok 3
  typeOf := fun _ => .ok (.name "Int32")

/-- The demo scope with every expression typed as void. -/
def voidScope : Scope := { demoScope with typeOf := fun _ => Except.ok .void }

/-- The demo scope with every expression typed as an integer array. -/
def arrScope : Scope := { demoScope with typeOf := fun _ => Except.ok (.array (.name "Int32")) }

/-- The demo scope without an enclosing function handle. -/
def noFunScope : Scope := { demoScope with function := none }

/-- The initial rewriter state of the examples. -/
def st0 : Desugar := ⟨emptyPool, 0, [], []⟩

/-- A pre-existing queued prefix statement used to observe flushing. -/
def marker : Expr := .constant (.i32 99) sp0

/-- A rewriter state whose prefix queue already holds one statement. -/
def stQ : Desugar := ⟨emptyPool, 0, [marker], []⟩

/-- C1: `on_seq` processes statements left to right; each statement is
recursively lowered, then the whole prefix queue is moved, in enqueue
order, into the output immediately before the lowered statement, the
remaining statements are processed from a state whose queue is empty, and
the queue is empty again after the sequence; so prefix statements are
never carried over to a later statement. -/
theorem claim1_on_seq_flushes_queue_per_statement (scope : Scope) (st : Desugar)
    (e : Expr) (rest : List Expr) :
    (on_seq scope st (e :: rest) =
      Outcome.bind (on_expr scope st e) fun p =>
        Outcome.bind (on_seq scope { p.2 with prefix_exprs := [] } rest) fun q =>
          .ok (p.2.prefix_exprs ++ p.1 :: q.1, q.2)) ∧
    (∀ out st', on_seq scope st (e :: rest) = .ok (out, st') → st'.prefix_exprs = []) :=
  ⟨on_seq_cons scope st e rest, fun out st' h =>
    on_seq_go_empty_after scope (e :: rest) st [] out st' (List.cons_ne_nil e rest)
      (by simpa [on_seq] using h)⟩

/-- Witness for C1 at a concrete input: a queued marker statement is
flushed in front of the lowered statement and the final queue is empty. -/
theorem claim1_witness :
    on_seq demoScope stQ [Expr.constant (.i32 1) sp0] =
      .ok ([marker, Expr.constant (.i32 1) sp0], st0) ∧ st0.prefix_exprs = [] := by
  have h := claim1_on_seq_flushes_queue_per_statement demoScope stQ
    (Expr.constant (.i32 1) sp0) []
  have heval : on_seq demoScope stQ [Expr.constant (.i32 1) sp0] =
      .ok ([marker, Expr.constant (.i32 1) sp0], st0) := by
    rw [h.1]
    simp [on_expr, on_seq, on_seq_go, stQ, st0, marker, emptyPool]
  exact ⟨heval, h.2 _ _ heval⟩

/-- Effects of a successful fresh-local allocation: the counter advances
by one, the synthetic name built from the old counter is interned, one
definition is appended, its handle is recorded at the end of the local
list, the prefix queue is untouched, and the returned reference names the
new local. -/
theorem fresh_local_ok_effects (scope : Scope) (st : Desugar) (t : TypeId)
    (p : Reference × Desugar) (h : fresh_local scope st t = .ok p) :
    p.2.name_count = st.name_count + 1 ∧
    p.2.pool.names = st.pool.names ++ [synthName st.name_count] ∧
    p.2.locals = st.locals ++ [st.pool.definitions.length] ∧
    p.2.prefix_exprs = st.prefix_exprs ∧
    p.1 = Reference.value (Value.local st.pool.definitions.length) := by
  unfold fresh_local at h
  cases hf : scope.function with
  | none => rw [hf] at h; exact absurd h (by simp)
  | some fidx =>
    rw [hf] at h
    cases ht : scope.typeIndex t with
    | error msg => rw [ht] at h; exact absurd h (by simp)
    | ok tidx =>
      rw [ht] at h
      simp only [Outcome.ok.injEq] at h
      rw [← h]
      simp

/-- Appending element lists splits the push loop into two runs. -/
theorem push_elems_append (scope : Scope) (localRef : Reference) (pos : Span) :
    ∀ (xs ys : List Expr) (st : Desugar),
      push_elems scope localRef pos st (xs ++ ys) =
        Outcome.bind (push_elems scope localRef pos st xs) fun st' =>
          push_elems scope localRef pos st' ys := by
  intro xs
  induction xs with
  | nil => intro ys st; simp [push_elems]
  | cons e rest ih =>
    intro ys st
    simp only [List.cons_append, push_elems]
    cases on_expr scope st e <;> simp [ih]

/-- One push step: lower the element, then enqueue exactly one
`ArrayPush` prefix statement carrying the array local and the lowered
element. -/
theorem push_elems_singleton (scope : Scope) (localRef : Reference) (pos : Span)
    (st : Desugar) (e : Expr) :
    push_elems scope localRef pos st [e] =
      Outcome.bind (on_expr scope st e) fun p =>
        .ok (addPrefix p.2 (pushCall localRef pos p.1)) := by
  simp [push_elems]

/-- Successful push loops pin down, for each element index, the state it
was lowered in, its lowered form, and the single enqueued push. -/
theorem push_elems_chain (scope : Scope) (localRef : Reference) (pos : Span) :
    ∀ (elems : List Expr) (st st' : Desugar),
      push_elems scope localRef pos st elems = .ok st' →
      ∀ i (hi : i < elems.length),
        ∃ sti pi, push_elems scope localRef pos st (elems.take i) = .ok sti ∧
          on_expr scope sti (elems.get ⟨i, hi⟩) = .ok pi ∧
          push_elems scope localRef pos st (elems.take (i + 1)) =
            .ok (addPrefix pi.2 (pushCall localRef pos pi.1)) := by
  intro elems
  induction elems with
  | nil => intro st st' _ i hi; exact absurd hi (by simp)
  | cons e rest ih =>
    intro st st' h i hi
    have hx' : ∃ p, on_expr scope st e = .ok p := by
      simp only [push_elems] at h
      cases hx : on_expr scope st e with
      | ok p => exact ⟨p, rfl⟩
      | err e' => rw [hx] at h; simp at h
      | panicked m => rw [hx] at h; simp at h
    obtain ⟨p, hx⟩ := hx'
    have hrest : push_elems scope localRef pos (addPrefix p.2 (pushCall localRef pos p.1)) rest
        = .ok st' := by
      simp only [push_elems, hx, Outcome.bind_ok] at h
      exact h
    cases i with
    | zero =>
      refine ⟨st, p, by simp [push_elems], by simpa using hx, ?_⟩
      rw [show (e :: rest).take 1 = [e] by simp]
      rw [push_elems_singleton, hx]
      simp
    | succ j =>
      have hj : j < rest.length := by simpa using hi
      obtain ⟨sti, pi, h1, h2, h3⟩ := ih _ _ hrest j hj
      refine ⟨sti, pi, ?_, by simpa using h2, ?_⟩
      · rw [show (e :: rest).take (j + 1) = e :: rest.take j by simp]
        simp only [push_elems, hx, Outcome.bind_ok]
        exact h1
      · rw [show (e :: rest).take (j + 2) = e :: rest.take (j + 1) by simp]
        simp only [push_elems, hx, Outcome.bind_ok]
        exact h3

/-- C2: lowering an array literal with a known element type allocates
exactly one fresh local of the array type (one handle appended, queue
untouched by the allocation), returns a plain identifier reference to it,
and, for each element in source order, lowers the element and then
enqueues exactly one `ArrayPush` prefix statement whose arguments are a
reference to the local and the lowered element — no reordering and no
duplication. -/
theorem claim2_on_array_lit_pushes_in_order (scope : Scope) (st : Desugar)
    (elems : List Expr) (t : TypeId) (pos : Span) (res : Expr) (st' : Desugar)
    (h : on_array_lit scope st elems (some t) pos = .ok (res, st')) :
    ∃ p1 : Reference × Desugar,
      fresh_local scope st (TypeId.array t) = .ok p1 ∧
      p1.2.locals = st.locals ++ [st.pool.definitions.length] ∧
      p1.2.prefix_exprs = st.prefix_exprs ∧
      res = .ident p1.1 pos ∧
      push_elems scope p1.1 pos p1.2 elems = .ok st' ∧
      ∀ i (hi : i < elems.length),
        ∃ sti pi, push_elems scope p1.1 pos p1.2 (elems.take i) = .ok sti ∧
          on_expr scope sti (elems.get ⟨i, hi⟩) = .ok pi ∧
          push_elems scope p1.1 pos p1.2 (elems.take (i + 1)) =
            .ok (addPrefix pi.2 (pushCall p1.1 pos pi.1)) := by
  simp only [on_array_lit] at h
  cases hf : fresh_local scope st (TypeId.array t) with
  | ok p1 =>
    rw [hf] at h
    simp only [Outcome.bind_ok] at h
    cases hp : push_elems scope p1.1 pos p1.2 elems with
    | ok st2 =>
      rw [hp] at h
      simp only [Outcome.bind_ok, Outcome.ok.injEq, Prod.mk.injEq] at h
      obtain ⟨hres, hst⟩ := h
      obtain ⟨_, _, hl, hq, _⟩ := fresh_local_ok_effects scope st _ p1 hf
      subst hst
      exact ⟨p1, rfl, hl, hq, hres.symm, hp,
        push_elems_chain scope p1.1 pos elems p1.2 st2 hp⟩
    | err e' => rw [hp] at h; simp at h
    | panicked m => rw [hp] at h; simp at h
  | err e' => rw [hf] at h; simp at h
  | panicked m => rw [hf] at h; simp at h

/-- Witness for C2 at a concrete two-element literal: one synthetic local
is allocated and two pushes are enqueued in source order. -/
theorem claim2_witness :
    (on_array_lit demoScope st0
        [Expr.constant (.i32 1) sp0, Expr.constant (.i32 2) sp0]
        (some (.name "Int32")) sp0 =
      .ok (.ident (.value (.local 0)) sp0,
        ⟨⟨[synthName 0], [⟨0, 5, ⟨3⟩⟩]⟩, 1,
          [pushCall (.value (.local 0)) sp0 (Expr.constant (.i32 1) sp0),
            pushCall (.value (.local 0)) sp0 (Expr.constant (.i32 2) sp0)], [0]⟩)) ∧
    (∃ p1 : Reference × Desugar,
      fresh_local demoScope st0 (TypeId.array (.name "Int32")) = .ok p1 ∧
      p1.2.locals = st0.locals ++ [st0.pool.definitions.length] ∧
      p1.2.prefix_exprs = st0.prefix_exprs ∧
      (Expr.ident (.value (.local 0)) sp0) = .ident p1.1 sp0 ∧
      push_elems demoScope p1.1 sp0 p1.2
          [Expr.constant (.i32 1) sp0, Expr.constant (.i32 2) sp0] =
        .ok (⟨⟨[synthName 0], [⟨0, 5, ⟨3⟩⟩]⟩, 1,
          [pushCall (.value (.local 0)) sp0 (Expr.constant (.i32 1) sp0),
            pushCall (.value (.local 0)) sp0 (Expr.constant (.i32 2) sp0)], [0]⟩) ∧
      ∀ i (hi : i < ([Expr.constant (.i32 1) sp0, Expr.constant (.i32 2) sp0] : List Expr).length),
        ∃ sti pi, push_elems demoScope p1.1 sp0 p1.2
            (([Expr.constant (.i32 1) sp0, Expr.constant (.i32 2) sp0] : List Expr).take i) =
            .ok sti ∧
          on_expr demoScope sti
              (([Expr.constant (.i32 1) sp0, Expr.constant (.i32 2) sp0] : List Expr).get
                ⟨i, hi⟩) = .ok pi ∧
          push_elems demoScope p1.1 sp0 p1.2
              (([Expr.constant (.i32 1) sp0, Expr.constant (.i32 2) sp0] : List Expr).take
                (i + 1)) =
            .ok (addPrefix pi.2 (pushCall p1.1 sp0 pi.1))) := by
  have heval : on_array_lit demoScope st0
      [Expr.constant (.i32 1) sp0, Expr.constant (.i32 2) sp0]
      (some (.name "Int32")) sp0 =
      .ok (.ident (.value (.local 0)) sp0,
        ⟨⟨[synthName 0], [⟨0, 5, ⟨3⟩⟩]⟩, 1,
          [pushCall (.value (.local 0)) sp0 (Expr.constant (.i32 1) sp0),
            pushCall (.value (.local 0)) sp0 (Expr.constant (.i32 2) sp0)], [0]⟩) := by
    simp [on_array_lit, fresh_local, push_elems, on_expr, demoScope, st0, emptyPool, addPrefix]
  exact ⟨heval, claim2_on_array_lit_pushes_in_order demoScope st0 _ _ sp0 _ _ heval⟩

theorem ofExcept_eq_ok {α : Type} (x : Except Error α) (v : α) :
    Outcome.ofExcept x = .ok v ↔ x = .ok v := by
  cases x <;> simp

theorem ofExcept_withSpan_eq_ok {α : Type} (x : Except Cause α) (s : Span) (v : α) :
    Outcome.ofExcept (resultWithSpan x s) = .ok v ↔ x = .ok v := by
  cases x <;> simp [resultWithSpan]

/-- C3: a successful for-in lowering lowers the body first and the array
expression second, allocates an array-typed local and an `Int32` counter
local, enqueues exactly two prefix statements in order — the array local
assigned from the lowered array expression, then the counter assigned
zero — and returns a single while-loop whose condition applies less-than
to the counter and an `ArraySize` intrinsic call placed inside the
condition, and whose body assigns the loop variable from the indexed
array local, then runs the lowered body, then increments the counter by
one. -/
theorem claim3_on_for_in_while_shape (scope : Scope) (st : Desugar) (name : Nat)
    (array : Expr) (body : List Expr) (span : Span) (res : Expr) (st' : Desugar)
    (h : on_for_in scope st name array body span = .ok (res, st')) :
    ∃ (ps : List Expr × Desugar) (pa : Expr × Desugar) (arrType : TypeId)
      (pl : Reference × Desugar) (counterType : TypeId) (pc : Reference × Desugar)
      (assignAdd lessThan : Callable),
      on_seq scope st body = .ok ps ∧
      on_expr scope ps.2 array = .ok pa ∧
      scope.typeOf pa.1 = .ok arrType ∧
      fresh_local scope pa.2 arrType = .ok pl ∧
      scope.resolve_type TypeName.INT32 = .ok counterType ∧
      fresh_local scope pl.2 counterType = .ok pc ∧
      get_function scope assignAddSig = .ok assignAdd ∧
      get_function scope lessThanSig = .ok lessThan ∧
      st' = addPrefix (addPrefix pc.2 (Expr.assign (.ident pl.1 span) pa.1 span))
        (Expr.assign (.ident pc.1 span) (.constant (.i32 0) span) span) ∧
      st'.prefix_exprs = pc.2.prefix_exprs ++
        [Expr.assign (.ident pl.1 span) pa.1 span,
          Expr.assign (.ident pc.1 span) (.constant (.i32 0) span) span] ∧
      res = .whileLoop
        (Expr.call lessThan []
          [.ident pc.1 span,
            Expr.call (Callable.intrinsic .arraySize counterType) []
              [.ident pl.1 span] span] span)
        (Expr.assign (.ident (Reference.value (Value.local name)) span)
            (Expr.arrayElem (.ident pl.1 span) (.ident pc.1 span) span) span
          :: ps.1 ++
          [Expr.call assignAdd [] [.ident pc.1 span, .constant (.i32 1) span] span])
        span := by
  simp only [on_for_in] at h
  cases h1 : on_seq scope st body with
  | ok ps =>
    rw [h1] at h
    simp only [Outcome.bind_ok] at h
    cases h2 : on_expr scope ps.2 array with
    | ok pa =>
      rw [h2] at h
      simp only [Outcome.bind_ok] at h
      cases h3 : scope.typeOf pa.1 with
      | ok arrType =>
        rw [h3] at h
        simp only [Outcome.ofExcept_ok, Outcome.bind_ok] at h
        cases h4 : fresh_local scope pa.2 arrType with
        | ok pl =>
          rw [h4] at h
          simp only [Outcome.bind_ok] at h
          cases h5 : scope.resolve_type TypeName.INT32 with
          | ok counterType =>
            rw [h5] at h
            simp only [resultWithSpan, Outcome.ofExcept_ok, Outcome.bind_ok] at h
            cases h6 : fresh_local scope pl.2 counterType with
            | ok pc =>
              rw [h6] at h
              simp only [Outcome.bind_ok] at h
              cases h7 : get_function scope assignAddSig with
              | ok assignAdd =>
                rw [h7] at h
                simp only [resultWithSpan, Outcome.ofExcept_ok, Outcome.bind_ok] at h
                cases h8 : get_function scope lessThanSig with
                | ok lessThan =>
                  rw [h8] at h
                  simp only [resultWithSpan, Outcome.ofExcept_ok, Outcome.bind_ok,
                    Outcome.ok.injEq, Prod.mk.injEq] at h
                  obtain ⟨hres, hst⟩ := h
                  subst hst
                  exact ⟨ps, pa, arrType, pl, counterType, pc, assignAdd, lessThan,
                    rfl, h2, h3, h4, rfl, h6, rfl, rfl, rfl, by simp [addPrefix],
                    hres.symm⟩
                | error c => rw [h8] at h; simp [resultWithSpan] at h
              | error c => rw [h7] at h; simp [resultWithSpan] at h
            | err e' => rw [h6] at h; simp at h
            | panicked m => rw [h6] at h; simp at h
          | error c => rw [h5] at h; simp [resultWithSpan] at h
        | err e' => rw [h4] at h; simp at h
        | panicked m => rw [h4] at h; simp at h
      | error e' => rw [h3] at h; simp at h
    | err e' => rw [h2] at h; simp at h
    | panicked m => rw [h2] at h; simp at h
  | err e' => rw [h1] at h; simp at h
  | panicked m => rw [h1] at h; simp at h

/-- The concrete while-loop produced by the for-in witness. -/
def forInDemoRes : Expr :=
  .whileLoop
    (Expr.call (.function 9) []
      [.ident (.value (.local 1)) sp0,
        Expr.call (Callable.intrinsic .arraySize (.name "Int32")) []
          [.ident (.value (.local 0)) sp0] sp0] sp0)
    [Expr.assign (.ident (.value (.local 77)) sp0)
        (Expr.arrayElem (.ident (.value (.local 0)) sp0) (.ident (.value (.local 1)) sp0) sp0)
        sp0,
      Expr.call (.function 8) [] [.ident (.value (.local 1)) sp0, .constant (.i32 1) sp0] sp0]
    sp0

/-- The concrete final state produced by the for-in witness: two synthetic
locals and the two queued initializing assignments. -/
def forInDemoState : Desugar :=
  ⟨⟨[synthName 0, synthName 1], [⟨0, 5, ⟨3⟩⟩, ⟨1, 5, ⟨3⟩⟩]⟩, 2,
    [Expr.assign (.ident (.value (.local 0)) sp0) (.ident (.value (.local 42)) sp0) sp0,
      Expr.assign (.ident (.value (.local 1)) sp0) (.constant (.i32 0) sp0) sp0], [0, 1]⟩

/-- Witness for C3 at a concrete for-in loop over an identifier with an
empty body. -/
theorem claim3_witness :
    (on_for_in arrScope st0 77 (.ident (.value (.local 42)) sp0) [] sp0 =
      .ok (forInDemoRes, forInDemoState)) ∧
    ∃ (ps : List Expr × Desugar) (pa : Expr × Desugar) (arrType : TypeId)
      (pl : Reference × Desugar) (counterType : TypeId) (pc : Reference × Desugar)
      (assignAdd lessThan : Callable),
      on_seq arrScope st0 [] = .ok ps ∧
      on_expr arrScope ps.2 (.ident (.value (.local 42)) sp0) = .ok pa ∧
      arrScope.typeOf pa.1 = .ok arrType ∧
      fresh_local arrScope pa.2 arrType = .ok pl ∧
      arrScope.resolve_type TypeName.INT32 = .ok counterType ∧
      fresh_local arrScope pl.2 counterType = .ok pc ∧
      get_function arrScope assignAddSig = .ok assignAdd ∧
      get_function arrScope lessThanSig = .ok lessThan ∧
      forInDemoState = addPrefix
        (addPrefix pc.2 (Expr.assign (.ident pl.1 sp0) pa.1 sp0))
        (Expr.assign (.ident pc.1 sp0) (.constant (.i32 0) sp0) sp0) ∧
      forInDemoState.prefix_exprs = pc.2.prefix_exprs ++
        [Expr.assign (.ident pl.1 sp0) pa.1 sp0,
          Expr.assign (.ident pc.1 sp0) (.constant (.i32 0) sp0) sp0] ∧
      forInDemoRes = .whileLoop
        (Expr.call lessThan []
          [.ident pc.1 sp0,
            Expr.call (Callable.intrinsic .arraySize counterType) []
              [.ident pl.1 sp0] sp0] sp0)
        (Expr.assign (.ident (Reference.value (Value.local 77)) sp0)
            (Expr.arrayElem (.ident pl.1 sp0) (.ident pc.1 sp0) sp0) sp0
          :: ps.1 ++
          [Expr.call assignAdd [] [.ident pc.1 sp0, .constant (.i32 1) sp0] sp0])
        sp0 := by
  have heval : on_for_in arrScope st0 77 (.ident (.value (.local 42)) sp0) [] sp0 =
      .ok (forInDemoRes, forInDemoState) := by
    simp [on_for_in, on_seq, on_seq_go, on_expr, fresh_local, get_function,
      Scope.resolve_type, Scope.resolve_function, resultWithSpan, arrScope, demoScope,
      demoCands, st0, emptyPool, addPrefix, addStrSig, assignAddSig, lessThanSig,
      BinOp.toStr, TypeName.STRING, TypeName.INT32, TypeName.BOOL, forInDemoRes,
      forInDemoState]
  exact ⟨heval, claim3_on_for_in_while_shape arrScope st0 77 _ [] sp0 _ _ heval⟩

/-- The pretty name of a script-reference type is never the plain string
name, so the source's guarded fall-through arm can never fire for a
script reference. -/
theorem scriptRef_pretty_ne_string (t : TypeId) : (TypeId.scriptRef t).pretty ≠ "String" := by
  intro h
  have hlen := congrArg String.length h
  have h1 : ("script_ref<" : String).length = 11 := by decide
  have h2 : (">" : String).length = 1 := by decide
  have h3 : ("String" : String).length = 6 := by decide
  simp only [TypeId.pretty, String.length_append, h1, h2, h3] at hlen
  omega

/-- C4: classification of a non-void lowered interpolation part by its
type, as performed per part by `interp_parts`: a reference-to-string part
is used as is (not wrapped again); a part of plain string type is wrapped
in exactly one take-reference call and `ToString` is not invoked; a part
of any other type gets exactly one `ToString` intrinsic call (typed with
the string type) wrapped in exactly one take-reference call. -/
theorem claim4_part_classification (strType : TypeId) (span : Span) (part : Expr)
    (ty : TypeId) (hne : ty ≠ .void) :
    (∀ inner, ty = .scriptRef inner → inner.pretty = "String" →
      classify strType span part ty = .ok part) ∧
    ((∀ inner, ty ≠ .scriptRef inner) → ty.pretty = "String" →
      classify strType span part ty = .ok (asRefCall strType span part) ∧
      countOp .toString (asRefCall strType span part) = countOp .toString part ∧
      countOp .asRef (asRefCall strType span part) = countOp .asRef part + 1) ∧
    ((∀ inner, ty = .scriptRef inner → inner.pretty ≠ "String") → ty.pretty ≠ "String" →
      classify strType span part ty =
        .ok (asRefCall strType span (toStringCall strType span part)) ∧
      countOp .toString (asRefCall strType span (toStringCall strType span part)) =
        countOp .toString part + 1 ∧
      countOp .asRef (asRefCall strType span (toStringCall strType span part)) =
        countOp .asRef part + 1) := by
  refine ⟨?_, ?_, ?_⟩
  · intro inner hty hstr
    subst hty
    simp [classify, hstr]
  · intro hnotref hstr
    refine ⟨?_, by simp [countOp, countOpList, asRefCall],
      by simp [countOp, countOpList, asRefCall, Nat.add_comm]⟩
    cases ty with
    | void => exact absurd rfl hne
    | scriptRef inner => exact absurd rfl (hnotref inner)
    | name s =>
      simp only [TypeId.pretty] at hstr
      simp [classify, TypeId.pretty, hstr]
    | ref t => simp [classify, hstr]
    | array t => simp [classify, hstr]
  · intro hrefne hstrne
    refine ⟨?_, by simp [countOp, countOpList, asRefCall, toStringCall, Nat.add_comm],
      by simp [countOp, countOpList, asRefCall, toStringCall, Nat.add_comm]⟩
    cases ty with
    | void => exact absurd rfl hne
    | scriptRef inner =>
      have h1 := hrefne inner rfl
      simp [classify, h1, scriptRef_pretty_ne_string inner]
    | name s =>
      simp only [TypeId.pretty] at hstrne
      simp [classify, TypeId.pretty, hstrne]
    | ref t => simp [classify, hstrne]
    | array t => simp [classify, hstrne]

/-- Witness for C4 at a concrete integer-typed part: exactly one
`ToString` call and one take-reference wrap are produced. -/
theorem claim4_witness :
    classify (.name "String") sp0 (Expr.ident (.value (.local 3)) sp0) (.name "Int32") =
      .ok (asRefCall (.name "String") sp0
        (toStringCall (.name "String") sp0 (Expr.ident (.value (.local 3)) sp0))) ∧
    countOp .toString (asRefCall (.name "String") sp0
        (toStringCall (.name "String") sp0 (Expr.ident (.value (.local 3)) sp0))) =
      countOp .toString (Expr.ident (.value (.local 3)) sp0) + 1 ∧
    countOp .asRef (asRefCall (.name "String") sp0
        (toStringCall (.name "String") sp0 (Expr.ident (.value (.local 3)) sp0))) =
      countOp .asRef (Expr.ident (.value (.local 3)) sp0) + 1 := by
  have h := claim4_part_classification (.name "String") sp0
    (Expr.ident (.value (.local 3)) sp0) (.name "Int32") (by decide)
  exact h.2.2 (fun inner hk => by cases hk) (by decide)

/-- An integer-typed identifier used as the interpolated part in the
concrete interpolation examples. -/
def nExpr : Expr := .ident (.value (.local 10)) sp0

/-- The string type handle resolved by the demo scope. -/
def strTD : TypeId := .name "String"

/-- The classified form of the integer part: take-reference around the
`ToString` intrinsic call. -/
def clsD : Expr := asRefCall strTD sp0 (toStringCall strTD sp0 nExpr)

/-- The reference-wrapped trailing fragment literal of the examples. -/
def fragRefD : Expr := asRefCall strTD sp0 (.constant (.string .str "!") sp0)

/-- The prefix-literal accumulator of the examples. -/
def accD : Expr := .constant (.string .str "x = ") sp0

/-- What the code actually produces for a nonempty trailing fragment: the
fragment concatenation is additionally wrapped in a take-reference
call. -/
def actualInterpRes : Expr :=
  .call (.function 7) []
    [asRefCall strTD sp0 accD,
      asRefCall strTD sp0 (.call (.function 7) [] [clsD, fragRefD] sp0)] sp0

/-- What the claim predicts for a nonempty trailing fragment: the bare
concatenation of the classified part with the wrapped fragment. -/
def claimedInterpRes : Expr :=
  .call (.function 7) []
    [asRefCall strTD sp0 accD, .call (.function 7) [] [clsD, fragRefD] sp0] sp0

/-- Counterexample to C5: interpolating an integer part followed by the
nonempty fragment "!" produces a combined value that is the take-reference
wrapping of the concatenation, not the bare concatenation the claim
describes. -/
theorem claim5_counterexample :
    on_interpolated_string demoScope st0 "x = " [(nExpr, "!")] sp0 =
      .ok (actualInterpRes, st0) ∧
    actualInterpRes ≠ claimedInterpRes := by
  constructor
  · simp [on_interpolated_string, interp_parts, on_expr, classify, combineWithFragment,
      get_function, Scope.resolve_type, Scope.resolve_function, resultWithSpan, demoScope,
      demoCands, st0, emptyPool, addStrSig, assignAddSig, lessThanSig, BinOp.toStr,
      TypeName.STRING, TypeName.INT32, TypeName.BOOL, TypeId.pretty, nExpr, strTD, clsD,
      fragRefD, accD, actualInterpRes, asRefCall, toStringCall]
    decide
  · simp [actualInterpRes, claimedInterpRes, asRefCall, clsD, fragRefD, accD]

/-- C5 (amended): the interpolation fold processes parts left to right
with the accumulator initialized to the prefix literal; each step lowers
the part, classifies it, computes the combined value — the classified
part when the trailing fragment is empty, otherwise the take-reference
wrapping of the concatenation (via the once-resolved concatenation
function) of the classified part with the reference-wrapped fragment —
and sets the accumulator to the concatenation of the reference-wrapped
accumulator with the combined value; in particular interpolating an
integer part with no trailing fragment after the prefix "x = " yields
exactly the concatenation of the wrapped prefix with the wrapped
`ToString` of the part. -/
theorem claim5_amended_interpolation_fold (scope : Scope) (strType : TypeId)
    (addStr : Callable) (span : Span) (st : Desugar) (acc part : Expr) (s : String)
    (rest : List (Expr × String)) :
    (interp_parts scope strType addStr span st acc ((part, s) :: rest) =
      Outcome.bind (on_expr scope st part) fun p =>
        Outcome.bind (Outcome.ofExcept (scope.typeOf p.1)) fun ty =>
          Outcome.bind (Outcome.ofExcept (classify strType span p.1 ty)) fun cls =>
            interp_parts scope strType addStr span p.2
              (Expr.call addStr []
                [asRefCall strType span acc,
                  if s.isEmpty then cls
                  else asRefCall strType span
                    (Expr.call addStr []
                      [cls, asRefCall strType span (.constant (.string .str s) span)]
                      span)]
                span) rest) ∧
    on_interpolated_string demoScope st0 "x = " [(nExpr, "")] sp0 =
      .ok (.call (.function 7) [] [asRefCall strTD sp0 accD, clsD] sp0, st0) := by
  constructor
  · simp only [interp_parts, combineWithFragment]
  · simp [on_interpolated_string, interp_parts, on_expr, classify, combineWithFragment,
      get_function, Scope.resolve_type, Scope.resolve_function, resultWithSpan, demoScope,
      demoCands, st0, emptyPool, addStrSig, assignAddSig, lessThanSig, BinOp.toStr,
      TypeName.STRING, TypeName.INT32, TypeName.BOOL, TypeId.pretty, nExpr, strTD, clsD,
      accD, asRefCall, toStringCall]
    decide

/-- C6: an interpolated part whose lowered form has void type makes the
fold — and the whole interpolation lowering — fail with the unsupported
formatting-void condition carrying the construct's span; no lowered
expression is produced. -/
theorem claim6_void_part_is_unsupported (scope : Scope) (strType : TypeId)
    (addStr : Callable) (span : Span) (st : Desugar) (acc part : Expr) (s : String)
    (rest : List (Expr × String)) (p : Expr × Desugar)
    (h1 : on_expr scope st part = .ok p) (h2 : scope.typeOf p.1 = .ok .void) :
    interp_parts scope strType addStr span st acc ((part, s) :: rest) =
      .err ((Cause.unsupported ("Formatting void")).withSpan span) ∧
    (∀ pre, scope.resolve_type TypeName.STRING = .ok strType →
      get_function scope addStrSig = .ok addStr →
      on_interpolated_string scope st pre ((part, s) :: rest) span =
        .err ((Cause.unsupported ("Formatting void")).withSpan span)) := by
  have hstep : interp_parts scope strType addStr span st acc ((part, s) :: rest) =
      .err ((Cause.unsupported ("Formatting void")).withSpan span) := by
    simp [interp_parts, h1, h2, classify]
  refine ⟨hstep, fun pre hrt hgf => ?_⟩
  simp only [on_interpolated_string, hrt, hgf, resultWithSpan, Outcome.ofExcept_ok,
    Outcome.bind_ok]
  simp [interp_parts, h1, h2, classify]

/-- Witness for C6 at a concrete void-typed part. -/
theorem claim6_witness :
    interp_parts voidScope strTD (.function 7) sp0 st0 accD [(nExpr, "!")] =
      .err ((Cause.unsupported ("Formatting void")).withSpan sp0) ∧
    on_interpolated_string voidScope st0 "x = " [(nExpr, "!")] sp0 =
      .err ((Cause.unsupported ("Formatting void")).withSpan sp0) := by
  have h := claim6_void_part_is_unsupported voidScope strTD (.function 7) sp0 st0 accD
    nExpr "!" [] (nExpr, st0)
    (by simp [on_expr, nExpr])
    (by simp [voidScope, demoScope])
  exact ⟨h.1, h.2 "x = "
    (by simp [voidScope, demoScope, Scope.resolve_type, TypeName.STRING, strTD])
    (by simp [voidScope, demoScope, get_function, Scope.resolve_function, demoCands,
      addStrSig, BinOp.toStr])⟩

/-- C7: callable resolution by exact signature: when the resolved
overload set contains an exact match the result is always a
`Callable.function` handle; when the overload set has no exact match the
failure is the function-not-found condition carrying the attempted
signature and, through the span-attaching wrapper used at every call
site, the source position; when the name itself does not resolve the
failure is the modelled not-found condition of the scope; and no
invocation ever returns an intrinsic. -/
theorem claim7_get_function_exact_match (scope : Scope) (sig : FunctionSignature) :
    (∀ cands idx, scope.functions sig.name = some cands → cands.byId sig = some idx →
      get_function scope sig = .ok (Callable.function idx)) ∧
    (∀ cands, scope.functions sig.name = some cands → cands.byId sig = none →
      ∀ span, resultWithSpan (get_function scope sig) span =
        .error ((Cause.functionNotFound sig).withSpan span)) ∧
    (scope.functions sig.name = none →
      ∀ span, resultWithSpan (get_function scope sig) span =
        .error ((Cause.unresolvedFunction sig.name).withSpan span)) ∧
    (∀ op t, get_function scope sig ≠ .ok (.intrinsic op t)) := by
  refine ⟨?_, ?_, ?_, ?_⟩
  · intro cands idx h1 h2
    simp [get_function, Scope.resolve_function, h1, h2]
  · intro cands h1 h2 span
    simp [get_function, Scope.resolve_function, h1, h2, resultWithSpan]
  · intro h1 span
    simp [get_function, Scope.resolve_function, h1, resultWithSpan]
  · intro op t h
    simp only [get_function] at h
    cases h1 : scope.resolve_function sig.name with
    | ok cands =>
      rw [h1] at h
      cases h2 : cands.byId sig with
      | some idx => simp [h2] at h
      | none => simp [h2] at h
    | error c => rw [h1] at h; simp at h

/-- Witness for C7: the demo scope resolves the concatenation signature
to a function handle, a same-named signature with different parameters
fails with function-not-found carrying it, and the success is not an
intrinsic. -/
theorem claim7_witness :
    get_function demoScope addStrSig = .ok (Callable.function 7) ∧
    resultWithSpan (get_function demoScope ⟨BinOp.add.toStr, [], "X"⟩) sp0 =
      .error ((Cause.functionNotFound ⟨BinOp.add.toStr, [], "X"⟩).withSpan sp0) ∧
    get_function demoScope addStrSig ≠ .ok (.intrinsic .arrayPush .void) := by
  have h := claim7_get_function_exact_match demoScope addStrSig
  have h2 := claim7_get_function_exact_match demoScope ⟨BinOp.add.toStr, [], "X"⟩
  refine ⟨h.1 demoCands 7 (by simp [demoScope, addStrSig, BinOp.toStr]) (by simp [demoCands]),
    ?_, h.2.2.2 .arrayPush .void⟩
  exact h2.2.1 demoCands (by simp [demoScope, BinOp.toStr])
    (by simp [demoCands, addStrSig, assignAddSig, lessThanSig, BinOp.toStr,
      TypeName.STRING, TypeName.INT32, TypeName.BOOL]) sp0

/-- Big-endian decimal digit list of a natural number, the fuel-free
reference form of the core's digit printer. -/
def decDigits (n : Nat) : List Char :=
  if n / 10 = 0 then [Nat.digitChar (n % 10)]
  else decDigits (n / 10) ++ [Nat.digitChar (n % 10)]
termination_by n
decreasing_by
  next h =>
    have h10 : ¬ n < 10 := fun hl => h (Nat.div_eq_of_lt hl)
    exact Nat.div_lt_self (by omega) (by omega)

theorem decDigits_ne_nil (n : Nat) : decDigits n ≠ [] := by
  rw [decDigits]
  split <;> simp

theorem toDigitsCore_eq_decDigits :
    ∀ (f n : Nat) (ds : List Char), n < f →
      Nat.toDigitsCore 10 f n ds = decDigits n ++ ds := by
  intro f
  induction f with
  | zero => intro n ds h; exact absurd h (Nat.not_lt_zero n)
  | succ f ih =>
    intro n ds h
    simp only [Nat.toDigitsCore]
    by_cases h0 : n / 10 = 0
    · rw [if_pos h0, decDigits, if_pos h0]
      simp
    · have h10 : ¬ n < 10 := fun hl => h0 (Nat.div_eq_of_lt hl)
      have hlt : n / 10 < f := by
        have := Nat.div_lt_self (show 0 < n by omega) (show 1 < 10 by omega)
        omega
      rw [if_neg h0, ih (n / 10) _ hlt]
      conv_rhs => rw [decDigits]
      rw [if_neg h0]
      simp

theorem digitChar_inj_lt10 :
    ∀ (a b : Fin 10), Nat.digitChar a.val = Nat.digitChar b.val → a = b := by
  decide

theorem append_singleton_inj {l₁ l₂ : List Char} {a b : Char}
    (h : l₁ ++ [a] = l₂ ++ [b]) : l₁ = l₂ ∧ a = b := by
  have hr := congrArg List.reverse h
  simp only [List.reverse_append, List.reverse_singleton, List.singleton_append,
    List.cons.injEq, List.reverse_inj] at hr
  exact ⟨hr.2, hr.1⟩

theorem mod10_eq_of_digitChar_eq {m n : Nat}
    (h : Nat.digitChar (m % 10) = Nat.digitChar (n % 10)) : m % 10 = n % 10 := by
  have := digitChar_inj_lt10 ⟨m % 10, Nat.mod_lt _ (by omega)⟩
    ⟨n % 10, Nat.mod_lt _ (by omega)⟩ h
  exact congrArg Fin.val this

theorem decDigits_inj : ∀ m n, decDigits m = decDigits n → m = n := by
  intro m
  induction m using Nat.strong_induction_on with
  | _ m ih =>
    intro n h
    rw [decDigits] at h
    conv_rhs at h => rw [decDigits]
    by_cases hm : m / 10 = 0 <;> by_cases hn : n / 10 = 0
    · rw [if_pos hm, if_pos hn] at h
      simp only [List.cons.injEq] at h
      have := mod10_eq_of_digitChar_eq h.1
      omega
    · rw [if_pos hm, if_neg hn] at h
      cases hd : decDigits (n / 10) with
      | nil => exact absurd hd (decDigits_ne_nil (n / 10))
      | cons c cs =>
        rw [hd] at h
        have hlen := congrArg List.length h
        simp [List.length_append] at hlen
    · rw [if_neg hm, if_pos hn] at h
      cases hd : decDigits (m / 10) with
      | nil => exact absurd hd (decDigits_ne_nil (m / 10))
      | cons c cs =>
        rw [hd] at h
        have hlen := congrArg List.length h
        simp [List.length_append] at hlen
    · rw [if_neg hm, if_neg hn] at h
      obtain ⟨h1, h2⟩ := append_singleton_inj h
      have h10 : ¬ m < 10 := fun hl => hm (Nat.div_eq_of_lt hl)
      have hdivlt : m / 10 < m := Nat.div_lt_self (by omega) (by omega)
      have hdiv := ih (m / 10) hdivlt (n / 10) h1
      have hmod := mod10_eq_of_digitChar_eq h2
      omega

theorem nat_repr_inj {m n : Nat} (h : Nat.repr m = Nat.repr n) : m = n := by
  have hd := congrArg String.data h
  simp only [Nat.repr, Nat.toDigits, List.asString] at hd
  rw [toDigitsCore_eq_decDigits (m + 1) m [] (by omega),
    toDigitsCore_eq_decDigits (n + 1) n [] (by omega)] at hd
  exact decDigits_inj m n (by simpa using hd)

/-- Distinct counters yield distinct synthetic names: the name embeds the
decimal rendering of the counter after a fixed reserved text. -/
theorem synthName_inj {m n : Nat} (h : synthName m = synthName n) : m = n := by
  apply nat_repr_inj
  have hd := congrArg String.data h
  simp only [synthName, String.data_append] at hd
  exact String.ext (List.append_cancel_left hd)

/-- C8: every successful fresh-local allocation bumps the counter by
exactly one, interns the synthetic name embedding the old counter, and
appends exactly one new handle to the local list (so the recorded locals
are in creation order); the synthetic names of different counters never
collide; and two consecutive successful allocations on the same rewriter
state — whichever sugar forms triggered them — intern two distinct names
and record their two handles in order. -/
theorem claim8_fresh_local_unique_names :
    (∀ (scope : Scope) (st : Desugar) (t : TypeId) (p : Reference × Desugar),
      fresh_local scope st t = .ok p →
      p.2.name_count = st.name_count + 1 ∧
      p.2.pool.names = st.pool.names ++ [synthName st.name_count] ∧
      p.2.locals = st.locals ++ [st.pool.definitions.length] ∧
      p.1 = Reference.value (Value.local st.pool.definitions.length)) ∧
    (∀ m n, m ≠ n → synthName m ≠ synthName n) ∧
    (∀ (scope : Scope) (st : Desugar) (t : TypeId) (p : Reference × Desugar)
      (t' : TypeId) (p' : Reference × Desugar),
      fresh_local scope st t = .ok p → fresh_local scope p.2 t' = .ok p' →
      synthName st.name_count ≠ synthName p.2.name_count ∧
      p'.2.pool.names = st.pool.names ++
        [synthName st.name_count, synthName (st.name_count + 1)] ∧
      p'.2.locals = st.locals ++
        [st.pool.definitions.length, p.2.pool.definitions.length]) := by
  refine ⟨?_, ?_, ?_⟩
  · intro scope st t p h
    obtain ⟨h1, h2, h3, _, h5⟩ := fresh_local_ok_effects scope st t p h
    exact ⟨h1, h2, h3, h5⟩
  · exact fun m n hmn h => hmn (synthName_inj h)
  · intro scope st t p t' p' h h'
    obtain ⟨h1, h2, h3, _, _⟩ := fresh_local_ok_effects scope st t p h
    obtain ⟨h1', h2', h3', _, _⟩ := fresh_local_ok_effects scope p.2 t' p' h'
    refine ⟨fun hc => absurd (synthName_inj hc) (by omega), ?_, ?_⟩
    · rw [h2', h2, h1]
      simp
    · rw [h3', h3]
      simp

/-- Witness for C8: two consecutive allocations in the demo scope produce
the distinct names with counters zero and one and record both handles. -/
theorem claim8_witness :
    (fresh_local demoScope st0 (.name "Int32") =
      .ok (.value (.local 0), ⟨⟨[synthName 0], [⟨0, 5, ⟨3⟩⟩]⟩, 1, [], [0]⟩)) ∧
    synthName 0 ≠ synthName 1 ∧
    ((⟨⟨[synthName 0], [⟨0, 5, ⟨3⟩⟩]⟩, 1, [], [0]⟩ : Desugar).pool.names =
      st0.pool.names ++ [synthName st0.name_count]) := by
  have heval : fresh_local demoScope st0 (.name "Int32") =
      .ok (.value (.local 0), ⟨⟨[synthName 0], [⟨0, 5, ⟨3⟩⟩]⟩, 1, [], [0]⟩) := by
    simp [fresh_local, demoScope, st0, emptyPool]
  have h := claim8_fresh_local_unique_names
  exact ⟨heval, h.2.1 0 1 (by omega),
    (h.1 demoScope st0 (.name "Int32") _ heval).2.1⟩

/-- C9: with a bound enclosing function, fresh-local allocation fails
exactly when the definition store cannot resolve the requested type to a
storage type, and the failure is the propagated pool resolution error (its
source position attached by the enclosing reporting layer, which annotates
causes not already carrying one). -/
theorem claim9_fresh_local_error_is_type_resolution (scope : Scope) (st : Desugar)
    (t : TypeId) (f : Nat) (hf : scope.function = some f) :
    (∀ e, fresh_local scope st t = .err e →
      ∃ msg, scope.typeIndex t = .error msg ∧ e = (Cause.poolError msg).toError) ∧
    (∀ msg, scope.typeIndex t = .error msg →
      fresh_local scope st t = .err ((Cause.poolError msg).toError)) := by
  constructor
  · intro e h
    simp only [fresh_local, hf] at h
    cases ht : scope.typeIndex t with
    | ok idx => rw [ht] at h; simp at h
    | error msg =>
      rw [ht] at h
      simp only [Outcome.err.injEq] at h
      exact ⟨msg, rfl, h.symm⟩
  · intro msg h
    simp [fresh_local, hf, h]

/-- The demo scope with a failing storage-type resolution. -/
def badTypeScope : Scope := { demoScope with typeIndex := fun _ => .error "unresolved" }

/-- Witness for C9: a failing storage-type resolution is the one error
path of fresh-local allocation. -/
theorem claim9_witness :
    fresh_local badTypeScope st0 (.name "Mystery") =
      .err ((Cause.poolError "unresolved").toError) ∧
    ∃ msg, badTypeScope.typeIndex (.name "Mystery") = .error msg ∧
      (Cause.poolError "unresolved").toError = (Cause.poolError msg).toError := by
  have h := claim9_fresh_local_error_is_type_resolution badTypeScope st0
    (.name "Mystery") 5 (by simp [badTypeScope, demoScope])
  have heval : fresh_local badTypeScope st0 (.name "Mystery") =
      .err ((Cause.poolError "unresolved").toError) :=
    h.2 "unresolved" (by simp [badTypeScope])
  exact ⟨heval, h.1 _ heval⟩

theorem bind_ne_panicked (x : Outcome α) (f : α → Outcome β) (m : String)
    (hx : ∀ m', x ≠ .panicked m') (hf : ∀ a m', f a ≠ .panicked m') :
    x.bind f ≠ .panicked m := by
  cases x with
  | ok a => exact hf a m
  | err e => simp
  | panicked m' => exact absurd rfl (hx m')

theorem ofExcept_ne_panicked {α : Type} (x : Except Error α) (m : String) :
    Outcome.ofExcept x ≠ .panicked m := by
  cases x <;> simp

theorem fresh_local_no_panic (scope : Scope) (st : Desugar) (t : TypeId)
    (hf : scope.function.isSome = true) (m : String) :
    fresh_local scope st t ≠ .panicked m := by
  obtain ⟨f, hfe⟩ := Option.isSome_iff_exists.mp hf
  simp only [fresh_local, hfe]
  cases scope.typeIndex t <;> simp

/-- Under a bound enclosing function and the array-literal typing
precondition, none of the mutually recursive lowering functions can reach
a panic. -/
theorem no_panic_mutual (scope : Scope) (hf : scope.function.isSome = true) :
    (∀ (st : Desugar) (e : Expr), litsTyped e = true →
      ∀ m, on_expr scope st e ≠ .panicked m) ∧
    (∀ (st : Desugar) (name : Nat) (array : Expr) (body : List Expr) (span : Span),
      (litsTyped array && litsTypedList body) = true →
      ∀ m, on_for_in scope st name array body span ≠ .panicked m) ∧
    (∀ (st : Desugar) (seq : List Expr), litsTypedList seq = true →
      ∀ m, on_seq scope st seq ≠ .panicked m) ∧
    (∀ (st : Desugar) (processed l : List Expr), litsTypedList l = true →
      ∀ m, on_seq_go scope st processed l ≠ .panicked m) ∧
    (∀ (st : Desugar) (pre : String) (parts : List (Expr × String)) (span : Span),
      litsTypedPairs parts = true →
      ∀ m, on_interpolated_string scope st pre parts span ≠ .panicked m) ∧
    (∀ (strType : TypeId) (addStr : Callable) (span : Span) (st : Desugar) (acc : Expr)
      (parts : List (Expr × String)), litsTypedPairs parts = true →
      ∀ m, interp_parts scope strType addStr span st acc parts ≠ .panicked m) ∧
    (∀ (st : Desugar) (elems : List Expr) (ty : Option TypeId) (pos : Span),
      (ty.isSome && litsTypedList elems) = true →
      ∀ m, on_array_lit scope st elems ty pos ≠ .panicked m) ∧
    (∀ (localRef : Reference) (pos : Span) (st : Desugar) (l : List Expr),
      litsTypedList l = true →
      ∀ m, push_elems scope localRef pos st l ≠ .panicked m) ∧
    (∀ (st : Desugar) (l : List Expr), litsTypedList l = true →
      ∀ m, on_expr_list scope st l ≠ .panicked m) := by
  refine on_expr.mutual_induct scope
    (fun st e => litsTyped e = true → ∀ m, on_expr scope st e ≠ .panicked m)
    (fun st name array body span => (litsTyped array && litsTypedList body) = true →
      ∀ m, on_for_in scope st name array body span ≠ .panicked m)
    (fun st seq => litsTypedList seq = true → ∀ m, on_seq scope st seq ≠ .panicked m)
    (fun st processed l => litsTypedList l = true →
      ∀ m, on_seq_go scope st processed l ≠ .panicked m)
    (fun st pre parts span => litsTypedPairs parts = true →
      ∀ m, on_interpolated_string scope st pre parts span ≠ .panicked m)
    (fun strType addStr span st acc parts => litsTypedPairs parts = true →
      ∀ m, interp_parts scope strType addStr span st acc parts ≠ .panicked m)
    (fun st elems ty pos => (ty.isSome && litsTypedList elems) = true →
      ∀ m, on_array_lit scope st elems ty pos ≠ .panicked m)
    (fun localRef pos st l => litsTypedList l = true →
      ∀ m, push_elems scope localRef pos st l ≠ .panicked m)
    (fun st l => litsTypedList l = true → ∀ m, on_expr_list scope st l ≠ .panicked m)
    ?_ ?_ ?_ ?_ ?_ ?_ ?_ ?_ ?_ ?_ ?_ ?_ ?_ ?_ ?_ ?_ ?_ ?_ ?_ ?_ ?_ ?_
  · intro st c pos _ m
    simp [on_expr]
  · intro st r pos _ m
    simp [on_expr]
  · intro st c targs args pos ih hl m
    simp only [litsTyped] at hl
    simp only [on_expr]
    exact bind_ne_panicked _ _ _ (ih hl) (fun p m' => by simp)
  · intro st lhs rhs pos ih1 ih2 hl m
    rw [show litsTyped (lhs.assign rhs pos) = (litsTyped lhs && litsTyped rhs) from by
      simp [litsTyped], Bool.and_eq_true] at hl
    simp only [on_expr]
    refine bind_ne_panicked _ _ _ (ih1 hl.1) (fun p m' => ?_)
    exact bind_ne_panicked _ _ _ (ih2 p hl.2) (fun q m'' => by simp)
  · intro st arr idx pos ih1 ih2 hl m
    rw [show litsTyped (arr.arrayElem idx pos) = (litsTyped arr && litsTyped idx) from by
      simp [litsTyped], Bool.and_eq_true] at hl
    simp only [on_expr]
    refine bind_ne_panicked _ _ _ (ih1 hl.1) (fun p m' => ?_)
    exact bind_ne_panicked _ _ _ (ih2 p hl.2) (fun q m'' => by simp)
  · intro st cond body pos ih1 ih3 hl m
    rw [show litsTyped (cond.whileLoop body pos) = (litsTyped cond && litsTypedList body)
      from by simp [litsTyped], Bool.and_eq_true] at hl
    simp only [on_expr]
    refine bind_ne_panicked _ _ _ (ih1 hl.1) (fun p m' => ?_)
    exact bind_ne_panicked _ _ _ (ih3 p hl.2) (fun q m'' => by simp)
  · intro st elems ty pos ih hl m
    rw [show litsTyped (Expr.arrayLit elems ty pos) = (ty.isSome && litsTypedList elems)
      from by simp [litsTyped]] at hl
    simp only [on_expr]
    exact ih hl m
  · intro st pre parts pos ih hl m
    rw [show litsTyped (Expr.interpStr pre parts pos) = litsTypedPairs parts from by
      simp [litsTyped]] at hl
    simp only [on_expr]
    exact ih hl m
  · intro st name array body pos ih hl m
    rw [show litsTyped (Expr.forIn name array body pos) =
      (litsTyped array && litsTypedList body) from by simp [litsTyped]] at hl
    simp only [on_expr]
    exact ih hl m
  · intro st name array body span ih3 ih1 hl m
    rw [Bool.and_eq_true] at hl
    simp only [on_for_in]
    refine bind_ne_panicked _ _ _ (ih3 hl.2) (fun ps m1 => ?_)
    refine bind_ne_panicked _ _ _ (ih1 ps hl.1) (fun pa m2 => ?_)
    refine bind_ne_panicked _ _ _ (ofExcept_ne_panicked _) (fun arrType m3 => ?_)
    refine bind_ne_panicked _ _ _ (fresh_local_no_panic scope pa.2 arrType hf)
      (fun pl m4 => ?_)
    refine bind_ne_panicked _ _ _ (ofExcept_ne_panicked _) (fun counterType m5 => ?_)
    refine bind_ne_panicked _ _ _ (fresh_local_no_panic scope pl.2 counterType hf)
      (fun pc m6 => ?_)
    refine bind_ne_panicked _ _ _ (ofExcept_ne_panicked _) (fun assignAdd m7 => ?_)
    exact bind_ne_panicked _ _ _ (ofExcept_ne_panicked _) (fun lessThan m8 => by simp)
  · intro st seq ih hl m
    simp only [on_seq]
    exact ih hl m
  · intro st processed _ m
    simp [on_seq_go]
  · intro st processed e rest ih1 ih2 ih3 hl m
    rw [show litsTypedList (e :: rest) = (litsTyped e && litsTypedList rest) from by
      simp [litsTypedList], Bool.and_eq_true] at hl
    simp only [on_seq_go]
    refine bind_ne_panicked _ _ _ (ih1 hl.1) (fun p m' => ?_)
    by_cases hemp : p.2.prefix_exprs.isEmpty
    · simp only [hemp, if_true]
      exact ih2 p hl.2 m'
    · rw [Bool.not_eq_true] at hemp
      simp only [hemp, Bool.false_eq_true, if_false]
      exact ih3 p hl.2 m'
  · intro st pre parts span acc ih hl m
    simp only [on_interpolated_string]
    refine bind_ne_panicked _ _ _ (ofExcept_ne_panicked _) (fun strType m1 => ?_)
    refine bind_ne_panicked _ _ _ (ofExcept_ne_panicked _) (fun addStr m2 => ?_)
    exact ih strType addStr hl m2
  · intro strType addStr span st acc _ m
    simp [interp_parts]
  · intro strType addStr span st acc part s rest ih1 ih2 hl m
    rw [show litsTypedPairs ((part, s) :: rest) = (litsTyped part && litsTypedPairs rest)
      from by simp [litsTypedPairs], Bool.and_eq_true] at hl
    simp only [interp_parts]
    refine bind_ne_panicked _ _ _ (ih1 hl.1) (fun p m1 => ?_)
    refine bind_ne_panicked _ _ _ (ofExcept_ne_panicked _) (fun ty m2 => ?_)
    refine bind_ne_panicked _ _ _ (ofExcept_ne_panicked _) (fun cls m3 => ?_)
    exact ih2 p cls hl.2 m3
  · intro st exprs pos hl m
    simp at hl
  · intro st exprs pos elemTy ih hl m
    rw [Bool.and_eq_true] at hl
    simp only [on_array_lit]
    refine bind_ne_panicked _ _ _ (fresh_local_no_panic scope st _ hf) (fun p m1 => ?_)
    exact bind_ne_panicked _ _ _ (ih p hl.2) (fun st2 m2 => by simp)
  · intro localRef pos st _ m
    simp [push_elems]
  · intro localRef pos st e rest ih1 ih2 hl m
    rw [show litsTypedList (e :: rest) = (litsTyped e && litsTypedList rest) from by
      simp [litsTypedList], Bool.and_eq_true] at hl
    simp only [push_elems]
    exact bind_ne_panicked _ _ _ (ih1 hl.1) (fun p m' => ih2 p hl.2 m')
  · intro st _ m
    simp [on_expr_list]
  · intro st e rest ih1 ih2 hl m
    rw [show litsTypedList (e :: rest) = (litsTyped e && litsTypedList rest) from by
      simp [litsTypedList], Bool.and_eq_true] at hl
    simp only [on_expr_list]
    refine bind_ne_panicked _ _ _ (ih1 hl.1) (fun p m' => ?_)
    exact bind_ne_panicked _ _ _ (ih2 p hl.2) (fun q m'' => by simp)

/-- C10: the panic behavior of the lowering entry points: an array
literal without an element type makes `on_array_lit` panic on the unwrap
(no error condition is returned), a fresh-local allocation in a scope
without an enclosing function handle panics on the unwrap, and under the
preconditions that the scope is bound to a function and every array
literal in the input carries its element type, no lowering run can reach
a panic. -/
theorem claim10_panic_conditions :
    (∀ (scope : Scope) (st : Desugar) (exprs : List Expr) (pos : Span),
      on_array_lit scope st exprs none pos =
        .panicked ("called Option::unwrap() on a None value")) ∧
    (∀ (scope : Scope) (st : Desugar) (t : TypeId), scope.function = none →
      fresh_local scope st t = .panicked ("called Option::unwrap() on a None value")) ∧
    (∀ (scope : Scope), scope.function.isSome = true →
      ∀ (st : Desugar) (e : Expr), litsTyped e = true →
        ∀ m, on_expr scope st e ≠ .panicked m) := by
  refine ⟨?_, ?_, ?_⟩
  · intro scope st exprs pos
    simp [on_array_lit]
  · intro scope st t h
    simp [fresh_local, h]
  · intro scope hfun
    exact (no_panic_mutual scope hfun).1

/-- Witness for C10: the untyped literal panics, the function-less scope
panics, and a lowering under the preconditions does not panic. -/
theorem claim10_witness :
    on_array_lit demoScope st0 [] none sp0 =
      .panicked ("called Option::unwrap() on a None value") ∧
    fresh_local noFunScope st0 (.name "Int32") =
      .panicked ("called Option::unwrap() on a None value") ∧
    on_expr demoScope st0 (.arrayLit [] (some (.name "Int32")) sp0) ≠
      .panicked ("called Option::unwrap() on a None value") := by
  refine ⟨claim10_panic_conditions.1 demoScope st0 [] sp0,
    claim10_panic_conditions.2.1 noFunScope st0 (.name "Int32")
      (by simp [noFunScope, demoScope]), ?_⟩
  exact claim10_panic_conditions.2.2 demoScope (by simp [demoScope]) st0
    (.arrayLit [] (some (.name "Int32")) sp0)
    (by simp [litsTyped, litsTypedList]) ("called Option::unwrap() on a None value")

end Sugar
